import Mathlib

/-!
Verification of the BeyondUID gacha record aggregation engine.

The definitions below are a shallow embedding of the Python sources
`BeyondUID/beyonduid_gachalog/get_gachalogs.py` (merge, incremental fetch,
load, max-seq-id) and `BeyondUID/beyonduid_gachalog/draw_img.py` (record
model, pity per pool, pull number in pool, pool statistics, card label).
The numeric identifiers (`seqId`, `gachaTs`) are decimal strings on the
wire and are converted with Python `int` at each comparison site, which is
modelled by `pyInt`.  Python `sorted` (stable, optionally with
`reverse=True`) is modelled by `List.mergeSort`, which is also a stable
sort, applied to the corresponding boolean comparison.
-/

namespace BeyondUID

/-- Numeric value of a decimal digit character. -/
def digitVal (c : Char) : Nat := c.toNat - 48

/-- Value of a list of decimal digit characters, most significant first. -/
def decNat (l : List Char) : Nat := l.foldl (fun n c => n * 10 + digitVal c) 0

/-- Model of Python `int(s)` on the decimal strings carried by the gacha
records: an optional leading minus sign followed by decimal digits. -/
def pyInt (s : String) : Int :=
  match s.data with
  | '-' :: rest => - (decNat rest : Int)
  | l => (decNat l : Int)

/-- Embedding of `CharRecordItem` (draw_img.py): a single character gacha
record.  `gachaTs` and `seqId` are decimal strings as on the wire. -/
structure CharRecordItem where
  poolId : String
  poolName : String
  rarity : Int
  gachaTs : String
  seqId : String
  charId : String
  charName : String
  isFree : Bool
  isNew : Bool
deriving DecidableEq

/-- Embedding of `WeaponRecordItem` (draw_img.py): a single weapon gacha
record.  Weapon records carry no `isFree` flag. -/
structure WeaponRecordItem where
  poolId : String
  poolName : String
  rarity : Int
  gachaTs : String
  seqId : String
  weaponId : String
  weaponName : String
  weaponType : String
  isNew : Bool
deriving DecidableEq

/-- Embedding of `PoolExportInfo` (draw_img.py). -/
structure PoolExportInfo where
  uid : String
  lang : String
  timezone : Int
  exportTimestamp : Int
  version : String
deriving DecidableEq

/-- Embedding of `GachaPoolExport` (draw_img.py): the persisted document. -/
structure GachaPoolExport where
  info : PoolExportInfo
  charList : List CharRecordItem
  weaponList : List WeaponRecordItem
deriving DecidableEq

/-- Embedding of `GachaRecordList` (model): one page of records returned by
the record source, together with its `hasMore` flag. -/
structure GachaRecordList (T : Type) where
  list : List T
  hasMore : Bool
deriving DecidableEq

/-- View of the duck-typed record access used by `draw_img.py`: the pity and
pull-number functions read `poolId`, `gachaTs`, `seqId`, `rarity` directly and
`isFree` through `getattr(item, "isFree", False)`.  A view packages those five
accessors for a record type. -/
structure RecordView (T : Type) where
  poolId : T → String
  gachaTs : T → String
  seqId : T → String
  rarity : T → Int
  isFree : T → Bool

/-- The view of character records: `isFree` is the record field. -/
def charView : RecordView CharRecordItem :=
  ⟨CharRecordItem.poolId, CharRecordItem.gachaTs, CharRecordItem.seqId,
   CharRecordItem.rarity, CharRecordItem.isFree⟩

/-- The view of weapon records: `getattr(item, "isFree", False)` always
yields `False` since weapon records have no such attribute. -/
def weaponView : RecordView WeaponRecordItem :=
  ⟨WeaponRecordItem.poolId, WeaponRecordItem.gachaTs, WeaponRecordItem.seqId,
   WeaponRecordItem.rarity, fun _ => false⟩

/-! ### get_gachalogs.py : load, max seq id, merge, fetch -/

/-- Outcome of attempting to read and validate the persisted export file;
this abstracts the file system and JSON layer that
`load_existing_gacha_data` interacts with: the file may be missing, opening
or reading it may raise, or `json.load` / `model_validate` may raise. -/
inductive FileReadResult (α : Type) where
  | absent : FileReadResult α
  | readError (e : String) : FileReadResult α
  | parseError (e : String) : FileReadResult α
  | ok (doc : α) : FileReadResult α

/-- Embedding of `load_existing_gacha_data` (get_gachalogs.py lines 53-62):
returns `none` when the file does not exist, and the `try/except` around
reading and validation turns every raised error into a logged warning and
`none`; only a successfully validated document is returned. -/
def load_existing_gacha_data :
    FileReadResult GachaPoolExport → Option GachaPoolExport
  | .absent => none
  | .readError _ => none
  | .parseError _ => none
  | .ok d => some d

/-- Embedding of `get_max_seq_id` (get_gachalogs.py lines 65-68): `0` for an
empty list, otherwise the maximum of `int(record.seqId)`.  The `seqId`
accessor is passed explicitly, mirroring the `TypeVar` bound. -/
def get_max_seq_id {T : Type} (seqId : T → String) (records : List T) : Int :=
  match records with
  | [] => 0
  | r :: rs => (rs.map (fun x => pyInt (seqId x))).foldl max (pyInt (seqId r))

/-- The glue of `fetch_full_record` (get_gachalogs.py lines 180-193): when
the loaded document is absent both existing lists default to empty, and the
known max sequence ids for the character and weapon categories are computed
with `get_max_seq_id`. -/
def knownMaxSeqIds (f : FileReadResult GachaPoolExport) : Int × Int :=
  let existing_data := load_existing_gacha_data f
  let existing_char_list := match existing_data with
    | none => []
    | some d => d.charList
  let existing_weapon_list := match existing_data with
    | none => []
    | some d => d.weaponList
  (get_max_seq_id (fun r => r.seqId) existing_char_list,
   get_max_seq_id (fun r => r.seqId) existing_weapon_list)

/-- The for-loop of `merge_records` (get_gachalogs.py lines 83-87): walk the
incoming records, append each record whose `seqId` string is not in the seen
set, adding its `seqId` to the set and counting the addition.  Returns the
appended records in order and the addition count. -/
def mergeGo {T : Type} (seqId : T → String) :
    List T → List String → List T × Nat
  | [], _ => ([], 0)
  | r :: rs, seen =>
    if seqId r ∈ seen then mergeGo seqId rs seen
    else
      let p := mergeGo seqId rs (seqId r :: seen)
      (r :: p.1, p.2 + 1)

/-- The comparison underlying `merged.sort(key=lambda x: int(x.seqId),
reverse=True)`: a stable descending sort by `int(seqId)` places `a` before
`b` exactly when `int(seqId b) ≤ int(seqId a)`. -/
def seqLe {T : Type} (seqId : T → String) (a b : T) : Bool :=
  decide (pyInt (seqId b) ≤ pyInt (seqId a))

/-- Embedding of `merge_records` (get_gachalogs.py lines 71-90): builds the
set of existing `seqId` strings, appends each incoming record whose id is
not already present (counting additions), then sorts the result descending
by `int(seqId)` with Python's stable sort. -/
def merge_records {T : Type} (seqId : T → String)
    (existing new_records : List T) : List T × Nat :=
  let p := mergeGo seqId new_records (existing.map seqId)
  ((existing ++ p.1).mergeSort (seqLe seqId), p.2)

/-- The per-page record loop of `fetch_record` (get_gachalogs.py lines
129-134): scan the page in order; on the first record with
`int(seqId) ≤ existing_max_seq_id` set the stop flag and discard that record
and the rest of the page; otherwise append the record. -/
def scanPage {T : Type} (seqId : T → String) (k : Int) :
    List T → List T × Bool
  | [] => ([], false)
  | r :: rs =>
    if pyInt (seqId r) ≤ k then ([], true)
    else
      let p := scanPage seqId k rs
      (r :: p.1, p.2)

/-- Embedding of the paging loop of `fetch_record` (get_gachalogs.py lines
106-147).  The record source is abstracted as the sequence of page responses
it returns; each loop iteration consumes the next response.  After scanning
a page: if the stop flag is set the collected records are returned at once;
an empty page list also ends the loop; otherwise the loop continues exactly
when `hasMore` is true. -/
def fetch_record {T : Type} (seqId : T → String)
    (pages : List (GachaRecordList T)) (existing_max_seq_id : Int) : List T :=
  match pages with
  | [] => []
  | page :: rest =>
    let p := scanPage seqId existing_max_seq_id page.list
    if p.2 then p.1
    else if page.list.isEmpty then p.1
    else if page.hasMore then p.1 ++ fetch_record seqId rest existing_max_seq_id
    else p.1

/-! ### draw_img.py : pity, pull number, statistics, card label -/

/-- First-occurrence key order of a Python dict built by inserting the given
keys in order: the key order of the `defaultdict` in `get_pity_per_pool`. -/
def pyDictKeys : List String → List String
  | [] => []
  | p :: ps => p :: (pyDictKeys ps).filter (fun q => q != p)

/-- The comparison underlying `sorted(pool_items, key=lambda x:
(int(x.gachaTs), int(x.seqId)), reverse=True)`: a stable descending sort by
the lexicographic integer key places `a` before `b` exactly when the key of
`b` is lexicographically at most the key of `a`. -/
def descLe {T : Type} (V : RecordView T) (a b : T) : Bool :=
  decide (pyInt (V.gachaTs b) < pyInt (V.gachaTs a)
    ∨ (pyInt (V.gachaTs b) = pyInt (V.gachaTs a)
        ∧ pyInt (V.seqId b) ≤ pyInt (V.seqId a)))

/-- The comparison underlying `sorted(non_free_items, key=lambda x:
(int(x.gachaTs), int(x.seqId)))`: ascending stable sort by the
lexicographic integer key. -/
def ascLe {T : Type} (V : RecordView T) (a b : T) : Bool :=
  decide (pyInt (V.gachaTs a) < pyInt (V.gachaTs b)
    ∨ (pyInt (V.gachaTs a) = pyInt (V.gachaTs b)
        ∧ pyInt (V.seqId a) ≤ pyInt (V.seqId b)))

/-- The group of a pool inside `get_pity_per_pool`, already sorted: the
`defaultdict` group `by_pool[p]` is the subsequence of `items` with that
`poolId`, and it is sorted descending by `(int(gachaTs), int(seqId))`. -/
def poolSorted {T : Type} (V : RecordView T) (items : List T) (p : String) :
    List T :=
  (items.filter (fun i => V.poolId i == p)).mergeSort (descLe V)

/-- The scanning loop of `get_pity_per_pool` (draw_img.py lines 95-100):
walk the sorted group from the most recent record; stop at the first record
of rarity 6; count every scanned record that is not a free pull. -/
def pityLoop {T : Type} (V : RecordView T) : List T → Nat
  | [] => 0
  | r :: rs =>
    if V.rarity r == 6 then 0
    else (if V.isFree r then 0 else 1) + pityLoop V rs

/-- Embedding of `get_pity_per_pool` (draw_img.py lines 82-102): group the
records by `poolId` (dict in first-occurrence key order), sort each group
descending by `(int(gachaTs), int(seqId))`, and run the pity scan on each
group.  The result dict is modelled as an association list. -/
def get_pity_per_pool {T : Type} (V : RecordView T) (items : List T) :
    List (String × Nat) :=
  (pyDictKeys (items.map V.poolId)).map
    (fun p => (p, pityLoop V (poolSorted V items p)))

/-- The match test of the lookup loop in `get_pull_number_in_pool`
(draw_img.py line 114): `i.seqId == item.seqId and i.gachaTs ==
item.gachaTs`, string equality on both fields. -/
def matchKey {T : Type} (V : RecordView T) (i t : T) : Bool :=
  (V.seqId i == V.seqId t) && (V.gachaTs i == V.gachaTs t)

/-- The candidate list of `get_pull_number_in_pool` (draw_img.py lines
110-112): records of the target's pool, with free records removed, sorted
ascending by `(int(gachaTs), int(seqId))`. -/
def candidates {T : Type} (V : RecordView T) (items : List T) (t : T) :
    List T :=
  ((items.filter (fun i => V.poolId i == V.poolId t)).filter
      (fun i => !V.isFree i)).mergeSort (ascLe V)

/-- Embedding of `get_pull_number_in_pool` (draw_img.py lines 105-116):
return `idx + 1` for the first candidate whose `seqId` and `gachaTs` strings
equal the target's, and `1` when no candidate matches. -/
def get_pull_number_in_pool {T : Type} (V : RecordView T) (items : List T)
    (t : T) : Nat :=
  match (candidates V items t).findIdx? (fun i => matchKey V i t) with
  | some idx => idx + 1
  | none => 1

/-- The dict returned by `_pool_stats_char` (draw_img.py lines 126-131),
with its four fixed keys as fields. -/
structure CharPoolStats where
  total : Nat
  free_count : Nat
  six_count : Nat
  non_free_count : Nat
deriving DecidableEq

/-- Embedding of `_pool_stats_char` (draw_img.py lines 119-131): filter the
character list by the predicate, then count the filtered records, the
non-free ones among them, and the rarity-6 ones among them; `free_count` is
computed as the difference of the first two lengths. -/
def pool_stats_char (char_list : List CharRecordItem)
    (predicate : CharRecordItem → Bool) : CharPoolStats :=
  let items := char_list.filter predicate
  let non_free := items.filter (fun c => !c.isFree)
  let six := items.filter (fun c => c.rarity == 6)
  ⟨items.length, items.length - non_free.length, six.length, non_free.length⟩

/-- The average-rate branch of `_build_pool_header_layer` (draw_img.py lines
344-354): the average `non_free_n / six_n` is drawn only when both `six_n`
and `non_free_n` are positive, otherwise the sentinel dash is drawn.  `none`
models the sentinel. -/
def avg_pity_display (six_n non_free_n : Nat) : Option ℚ :=
  if 0 < six_n ∧ 0 < non_free_n then some ((non_free_n : ℚ) / (six_n : ℚ))
  else none

/-- The card label of `_draw_card` (draw_img.py line 190): a free six-star
shows the lucky label instead of the pull number. -/
def card_text (is_free : Bool) (gacha_num : Nat) : String :=
  if is_free then "欧皇" else toString gacha_num ++ "抽"

/-- Builder for concrete character records in examples: only the fields the
algorithms read are varied, the cosmetic fields are fixed. -/
def mkChar (pool : String) (rarity : Int) (ts seq : String) (free : Bool) :
    CharRecordItem :=
  ⟨pool, "pool", rarity, ts, seq, "chr", "name", free, false⟩

unseal List.merge List.mergeSort

/-! ### Helper lemmas about the merge engine -/

lemma seqLe_trans {T : Type} (seqId : T → String) (a b c : T)
    (hab : seqLe seqId a b = true) (hbc : seqLe seqId b c = true) :
    seqLe seqId a c = true := by
  simp only [seqLe, decide_eq_true_eq] at *
  omega

lemma seqLe_total {T : Type} (seqId : T → String) (a b : T) :
    (seqLe seqId a b || seqLe seqId b a) = true := by
  simp only [seqLe, Bool.or_eq_true, decide_eq_true_eq]
  omega

lemma mergeGo_mem {T : Type} (seqId : T → String) :
    ∀ (new : List T) (seen : List String) (r : T),
      r ∈ (mergeGo seqId new seen).1 → r ∈ new ∧ seqId r ∉ seen := by
  intro new
  induction new with
  | nil => intro seen r h; simp [mergeGo] at h
  | cons a rs ih =>
    intro seen r h
    by_cases ha : seqId a ∈ seen
    · simp only [mergeGo, if_pos ha] at h
      rcases ih seen r h with ⟨h1, h2⟩
      exact ⟨List.mem_cons_of_mem _ h1, h2⟩
    · simp only [mergeGo, if_neg ha] at h
      rcases List.mem_cons.mp h with rfl | h
      · exact ⟨List.mem_cons_self _ _, ha⟩
      · rcases ih _ r h with ⟨h1, h2⟩
        refine ⟨List.mem_cons_of_mem _ h1, fun hc => h2 ?_⟩
        exact List.mem_cons_of_mem _ hc

lemma mergeGo_map_nodup {T : Type} (seqId : T → String) :
    ∀ (new : List T) (seen : List String),
      ((mergeGo seqId new seen).1.map seqId).Nodup := by
  intro new
  induction new with
  | nil => intro seen; simp [mergeGo]
  | cons a rs ih =>
    intro seen
    by_cases ha : seqId a ∈ seen
    · simpa only [mergeGo, if_pos ha] using ih seen
    · simp only [mergeGo, if_neg ha, List.map_cons, List.nodup_cons]
      refine ⟨fun hc => ?_, ih (seqId a :: seen)⟩
      rcases List.mem_map.mp hc with ⟨r, hr, hrs⟩
      rcases mergeGo_mem seqId rs (seqId a :: seen) r hr with ⟨_, h2⟩
      exact h2 (hrs ▸ List.mem_cons_self _ _)

lemma mergeGo_covers {T : Type} (seqId : T → String) :
    ∀ (new : List T) (seen : List String) (r : T), r ∈ new →
      seqId r ∈ seen ∨ seqId r ∈ (mergeGo seqId new seen).1.map seqId := by
  intro new
  induction new with
  | nil => intro seen r h; simp at h
  | cons a rs ih =>
    intro seen r h
    by_cases ha : seqId a ∈ seen
    · simp only [mergeGo, if_pos ha]
      rcases List.mem_cons.mp h with rfl | h
      · exact Or.inl ha
      · exact ih seen r h
    · simp only [mergeGo, if_neg ha, List.map_cons]
      rcases List.mem_cons.mp h with rfl | h
      · exact Or.inr (List.mem_cons_self _ _)
      · rcases ih (seqId a :: seen) r h with hs | hk
        · rcases List.mem_cons.mp hs with he | hs
          · exact Or.inr (he ▸ List.mem_cons_self _ _)
          · exact Or.inl hs
        · exact Or.inr (List.mem_cons_of_mem _ hk)

lemma mergeGo_all_seen {T : Type} (seqId : T → String) :
    ∀ (new : List T) (seen : List String), (∀ r ∈ new, seqId r ∈ seen) →
      mergeGo seqId new seen = ([], 0) := by
  intro new
  induction new with
  | nil => intro seen _; rfl
  | cons a rs ih =>
    intro seen h
    have ha : seqId a ∈ seen := h a (List.mem_cons_self _ _)
    simp only [mergeGo, if_pos ha]
    exact ih seen (fun r hr => h r (List.mem_cons_of_mem _ hr))

lemma merge_records_perm {T : Type} (seqId : T → String) (A B : List T) :
    (merge_records seqId A B).1.Perm
      (A ++ (mergeGo seqId B (A.map seqId)).1) :=
  List.mergeSort_perm _ _

lemma merge_records_pairwise {T : Type} (seqId : T → String) (A B : List T) :
    (merge_records seqId A B).1.Pairwise
      (fun a b => seqLe seqId a b = true) := by
  exact List.sorted_mergeSort (seqLe_trans seqId) (seqLe_total seqId)
    (A ++ (mergeGo seqId B (A.map seqId)).1)

lemma mergeGo_count {T : Type} (seqId : T → String) :
    ∀ (new : List T) (seen : List String),
      (mergeGo seqId new seen).2
        = (((new.map seqId).toFinset) \ seen.toFinset).card := by
  intro new
  induction new with
  | nil => intro seen; simp [mergeGo]
  | cons a rs ih =>
    intro seen
    by_cases ha : seqId a ∈ seen
    · have hmem : seqId a ∈ seen.toFinset := List.mem_toFinset.mpr ha
      simp only [mergeGo, if_pos ha, List.map_cons, List.toFinset_cons]
      rw [ih seen, Finset.insert_sdiff_of_mem _ hmem]
    · have hmem : seqId a ∉ seen.toFinset := fun hc => ha (List.mem_toFinset.mp hc)
      simp only [mergeGo, if_neg ha, List.map_cons, List.toFinset_cons]
      rw [ih (seqId a :: seen)]
      rw [List.toFinset_cons, Finset.sdiff_insert]
      rw [Finset.insert_sdiff_of_not_mem _ hmem]
      set u := (rs.map seqId).toFinset \ seen.toFinset with hu
      by_cases hau : seqId a ∈ u
      · rw [Finset.insert_eq_self.mpr hau]
        have := Finset.card_erase_add_one hau
        omega
      · rw [Finset.card_insert_of_not_mem hau, Finset.erase_eq_of_not_mem hau]

/-- Claim C5: merging is idempotent.  Re-merging the first merge's output
with the same incoming list adds nothing: the merged list is returned
unchanged in contents and order, and the new-record count is 0.  The
embedding is a pure function of its inputs, so neither call can mutate its
arguments. -/
theorem merge_records_idempotent {T : Type} (seqId : T → String)
    (A B : List T) :
    merge_records seqId (merge_records seqId A B).1 B
      = ((merge_records seqId A B).1, 0) := by
  have hperm := merge_records_perm seqId A B
  have hseen : ∀ r ∈ B, seqId r ∈ (merge_records seqId A B).1.map seqId := by
    intro r hr
    have hmem : seqId r ∈ (A ++ (mergeGo seqId B (A.map seqId)).1).map seqId := by
      rcases mergeGo_covers seqId B (A.map seqId) r hr with h | h
      · rw [List.map_append]; exact List.mem_append_left _ h
      · rw [List.map_append]; exact List.mem_append_right _ h
    exact ((hperm.map seqId).mem_iff).mpr hmem
  have h0 := mergeGo_all_seen seqId B
    ((merge_records seqId A B).1.map seqId) hseen
  have hsorted := merge_records_pairwise seqId A B
  show ((((merge_records seqId A B).1
      ++ (mergeGo seqId B ((merge_records seqId A B).1.map seqId)).1).mergeSort
        (seqLe seqId)),
      (mergeGo seqId B ((merge_records seqId A B).1.map seqId)).2)
    = ((merge_records seqId A B).1, 0)
  rw [h0]
  simp only [List.append_nil]
  rw [List.mergeSort_of_sorted hsorted]

/-- Claim C3 (amended): `newCount` equals the number of distinct `seqId`
strings among the records of B that are not among the `seqId` strings of A.
Incoming records repeating a `seqId` already added from earlier in B are not
counted again. -/
theorem merge_records_newCount {T : Type} (seqId : T → String)
    (A B : List T) :
    (merge_records seqId A B).2
      = (((B.map seqId).toFinset) \ ((A.map seqId).toFinset)).card := by
  show (mergeGo seqId B (A.map seqId)).2 = _
  exact mergeGo_count seqId B (A.map seqId)

/-- Claim C3 counterexample: with A empty and B holding two records with the
same seqId string "1", `merge_records` reports `newCount = 1`, while the
number of records of B whose seqId is not among the seqIds of A is 2. -/
theorem merge_records_newCount_counterexample :
    (merge_records (fun r => r.seqId) ([] : List CharRecordItem)
        [mkChar "p" 3 "100" "1" false, mkChar "p" 4 "200" "1" false]).2 = 1
    ∧ ([mkChar "p" 3 "100" "1" false, mkChar "p" 4 "200" "1" false].filter
        (fun r => !((([] : List CharRecordItem).map
          (fun t => t.seqId)).contains r.seqId))).length = 2 := by
  constructor
  · decide
  · decide

/-- Claim C2 counterexample: duplicated seqIds inside the existing list A
survive the merge untouched.  With A holding the same seqId "5" twice and B
empty, the merged list holds the record twice, so it is neither strictly
descending by integer seqId nor free of repeated sequence ids. -/
theorem merge_records_ordering_counterexample :
    (merge_records (fun r => r.seqId)
        [mkChar "p" 3 "100" "5" false, mkChar "p" 4 "200" "5" false]
        ([] : List CharRecordItem)).1
      = [mkChar "p" 3 "100" "5" false, mkChar "p" 4 "200" "5" false]
    ∧ ¬ ([mkChar "p" 3 "100" "5" false,
          mkChar "p" 4 "200" "5" false].Pairwise
        (fun a b => pyInt b.seqId < pyInt a.seqId))
    ∧ ([mkChar "p" 3 "100" "5" false, mkChar "p" 4 "200" "5" false].map
        (fun r => r.seqId)).count "5" = 2 := by
  refine ⟨by decide, fun h => ?_, by decide⟩
  have := (List.pairwise_cons.mp h).1 _ (List.mem_cons_self _ _)
  exact absurd this (by decide)

/-- Claim C2 (amended): the merged list is strictly descending by integer
seqId, with every seqId string occurring at most once, provided the existing
list A has no repeated seqId string and distinct seqId strings occurring in
A or B always denote distinct integers. -/
theorem merge_records_sorted_dedup {T : Type} (seqId : T → String)
    (A B : List T)
    (h1 : (A.map seqId).Nodup)
    (h2 : ∀ r ∈ A ++ B, ∀ t ∈ A ++ B,
      pyInt (seqId r) = pyInt (seqId t) → seqId r = seqId t) :
    ((merge_records seqId A B).1.map seqId).Nodup
    ∧ (merge_records seqId A B).1.Pairwise
        (fun a b => pyInt (seqId b) < pyInt (seqId a)) := by
  have hperm := merge_records_perm seqId A B
  have hKn := mergeGo_map_nodup seqId B (A.map seqId)
  have hAK : ((A ++ (mergeGo seqId B (A.map seqId)).1).map seqId).Nodup := by
    rw [List.map_append, List.nodup_append]
    refine ⟨h1, hKn, ?_⟩
    intro s hs hs2
    rcases List.mem_map.mp hs2 with ⟨r, hr, hrs⟩
    rcases mergeGo_mem seqId B (A.map seqId) r hr with ⟨_, hnot⟩
    exact hnot (hrs ▸ hs)
  have hMn : ((merge_records seqId A B).1.map seqId).Nodup :=
    ((hperm.map seqId).nodup_iff).mpr hAK
  refine ⟨hMn, ?_⟩
  have hle := merge_records_pairwise seqId A B
  have hne : (merge_records seqId A B).1.Pairwise
      (fun a b => seqId a ≠ seqId b) :=
    (List.pairwise_map).mp hMn
  have hmemAB : ∀ x ∈ (merge_records seqId A B).1, x ∈ A ++ B := by
    intro x hx
    rcases List.mem_append.mp (hperm.mem_iff.mp hx) with h | h
    · exact List.mem_append_left _ h
    · rcases mergeGo_mem seqId B (A.map seqId) x h with ⟨hB, _⟩
      exact List.mem_append_right _ hB
  refine List.Pairwise.imp_of_mem ?_ (hle.and hne)
  intro a b ha hb hab
  rcases hab with ⟨hab1, hab2⟩
  have hle2 : pyInt (seqId b) ≤ pyInt (seqId a) := by
    simpa [seqLe, decide_eq_true_eq] using hab1
  rcases lt_or_eq_of_le hle2 with h | h
  · exact h
  · exact absurd (h2 b (hmemAB b hb) a (hmemAB a ha) h) (fun hc => hab2 hc.symm)

/-- Witness for `merge_records_sorted_dedup` at concrete lists with distinct
seqId integers. -/
theorem merge_records_sorted_dedup_witness :
    ((merge_records (fun r : CharRecordItem => r.seqId)
        [mkChar "p" 6 "300" "5" false]
        [mkChar "p" 3 "100" "3" false, mkChar "p" 6 "300" "5" false]).1.map
          (fun r => r.seqId)).Nodup
    ∧ (merge_records (fun r : CharRecordItem => r.seqId)
        [mkChar "p" 6 "300" "5" false]
        [mkChar "p" 3 "100" "3" false, mkChar "p" 6 "300" "5" false]).1.Pairwise
        (fun a b => pyInt b.seqId < pyInt a.seqId) :=
  merge_records_sorted_dedup (fun r : CharRecordItem => r.seqId)
    [mkChar "p" 6 "300" "5" false]
    [mkChar "p" 3 "100" "3" false, mkChar "p" 6 "300" "5" false]
    (by decide) (by decide)

lemma countP_map_nodup_le_one {T : Type} (f : T → String) :
    ∀ (l : List T), ((l.map f).Nodup) → ∀ (s : String),
      l.countP (fun r => f r == s) ≤ 1 := by
  intro l
  induction l with
  | nil => intro _ s; simp
  | cons a rs ih =>
    intro h s
    rw [List.map_cons, List.nodup_cons] at h
    by_cases ha : f a = s
    · have hz : rs.countP (fun r => f r == s) = 0 := by
        rw [List.countP_eq_zero]
        intro r hr
        simp only [beq_iff_eq]
        intro hc
        exact h.1 (List.mem_map.mpr ⟨r, hr, by rw [hc, ha]⟩)
      rw [List.countP_cons]
      simp [ha, hz]
    · rw [List.countP_cons]
      simp only [beq_iff_eq, ha]
      simpa using ih h.2 s

/-- Claim C9 counterexample: the dedup key of `merge_records` is the raw
seqId string, not its integer value.  The strings "5" and "05" denote the
same integer, yet a record with seqId "05" incoming against an existing
record with seqId "5" is kept, so both survive the merge. -/
theorem merge_records_string_key_counterexample :
    pyInt "05" = pyInt "5"
    ∧ (merge_records (fun r : CharRecordItem => r.seqId)
        [mkChar "p" 3 "100" "5" false]
        [mkChar "p" 3 "100" "05" false]).1
      = [mkChar "p" 3 "100" "5" false, mkChar "p" 3 "100" "05" false] := by
  constructor
  · decide
  · decide

/-- Claim C9 (amended): seqIds are converted to integers for ordering
(sorting, maxima, early-stop thresholds), but `merge_records` deduplicates
by exact string equality of `seqId`: the seqId strings of the merged list
are exactly the union of those of A and B, and any seqId string not already
present in A occurs at most once in the merged list. -/
theorem merge_records_dedup_by_string {T : Type} (seqId : T → String)
    (A B : List T) :
    ((merge_records seqId A B).1.map seqId).toFinset
      = (A.map seqId).toFinset ∪ (B.map seqId).toFinset
    ∧ ∀ s : String, s ∉ A.map seqId →
        (merge_records seqId A B).1.countP (fun r => seqId r == s) ≤ 1 := by
  have hperm := merge_records_perm seqId A B
  constructor
  · ext s
    simp only [List.mem_toFinset, Finset.mem_union]
    rw [(hperm.map seqId).mem_iff, List.map_append, List.mem_append]
    constructor
    · rintro (h | h)
      · exact Or.inl h
      · rcases List.mem_map.mp h with ⟨r, hr, hrs⟩
        rcases mergeGo_mem seqId B (A.map seqId) r hr with ⟨hB, _⟩
        exact Or.inr (List.mem_map.mpr ⟨r, hB, hrs⟩)
    · rintro (h | h)
      · exact Or.inl h
      · rcases List.mem_map.mp h with ⟨r, hr, hrs⟩
        rcases mergeGo_covers seqId B (A.map seqId) r hr with hc | hc
        · exact Or.inl (hrs ▸ hc)
        · exact Or.inr (hrs ▸ hc)
  · intro s hs
    rw [hperm.countP_eq, List.countP_append]
    have hA : A.countP (fun r => seqId r == s) = 0 := by
      rw [List.countP_eq_zero]
      intro r hr
      simp only [beq_iff_eq]
      intro hc
      exact hs (List.mem_map.mpr ⟨r, hr, hc⟩)
    have hK := countP_map_nodup_le_one seqId _
      (mergeGo_map_nodup seqId B (A.map seqId)) s
    omega

/-- Witness for `merge_records_dedup_by_string` at concrete lists and the
seqId string "3", which is not among A's seqIds. -/
theorem merge_records_dedup_by_string_witness :
    ((merge_records (fun r : CharRecordItem => r.seqId)
        [mkChar "p" 6 "300" "5" false]
        [mkChar "p" 3 "100" "3" false]).1.map (fun r => r.seqId)).toFinset
      = ([mkChar "p" 6 "300" "5" false].map
          (fun r : CharRecordItem => r.seqId)).toFinset
        ∪ ([mkChar "p" 3 "100" "3" false].map
          (fun r : CharRecordItem => r.seqId)).toFinset
    ∧ (merge_records (fun r : CharRecordItem => r.seqId)
        [mkChar "p" 6 "300" "5" false]
        [mkChar "p" 3 "100" "3" false]).1.countP
          (fun r => r.seqId == "3") ≤ 1 :=
  ⟨(merge_records_dedup_by_string (fun r : CharRecordItem => r.seqId)
      [mkChar "p" 6 "300" "5" false] [mkChar "p" 3 "100" "3" false]).1,
   (merge_records_dedup_by_string (fun r : CharRecordItem => r.seqId)
      [mkChar "p" 6 "300" "5" false] [mkChar "p" 3 "100" "3" false]).2
      "3" (by decide)⟩

lemma scanPage_eq {T : Type} (seqId : T → String) (k : Int) :
    ∀ (l : List T),
      scanPage seqId k l
        = (l.takeWhile (fun r => decide (k < pyInt (seqId r))),
           !(l.all (fun r => decide (k < pyInt (seqId r))))) := by
  intro l
  induction l with
  | nil => simp [scanPage]
  | cons r rs ih =>
    by_cases h : pyInt (seqId r) ≤ k
    · have hp : decide (k < pyInt (seqId r)) = false := by
        simp only [decide_eq_false_iff_not, not_lt]; exact h
      simp [scanPage, if_pos h, List.takeWhile_cons, hp]
    · have hp : decide (k < pyInt (seqId r)) = true := by
        simp only [decide_eq_true_eq]; omega
      simp [scanPage, if_neg h, List.takeWhile_cons, hp, ih]

/-- Claim C4: early-stop correctness of the incremental fetch.  Every
returned record has integer seqId strictly above the known maximum; the page
scan accepts exactly the maximal prefix of records above the threshold and
raises the stop flag exactly when some record of the page falls at or below
it; when the stop flag is raised the fetch returns the accepted records at
once, consuming no further page.  The last conjunct checks the concrete
scenario: one page `[seqId 8, seqId 5, seqId 3]` against threshold 5 yields
only the seqId-8 record. -/
theorem fetch_record_early_stop :
    (∀ (T : Type) (seqId : T → String) (k : Int)
        (pages : List (GachaRecordList T)) (r : T),
        r ∈ fetch_record seqId pages k → k < pyInt (seqId r))
    ∧ (∀ (T : Type) (seqId : T → String) (k : Int) (l : List T),
        scanPage seqId k l
          = (l.takeWhile (fun r => decide (k < pyInt (seqId r))),
             !(l.all (fun r => decide (k < pyInt (seqId r))))))
    ∧ (∀ (T : Type) (seqId : T → String) (k : Int)
        (page : GachaRecordList T) (rest : List (GachaRecordList T)),
        (scanPage seqId k page.list).2 = true →
        fetch_record seqId (page :: rest) k = (scanPage seqId k page.list).1)
    ∧ fetch_record (fun r : CharRecordItem => r.seqId)
        [⟨[mkChar "p" 3 "1100" "8" false, mkChar "p" 6 "1000" "5" false,
           mkChar "p" 3 "900" "3" false], true⟩] 5
      = [mkChar "p" 3 "1100" "8" false] := by
  refine ⟨?_, ?_, ?_, by decide⟩
  · intro T seqId k pages
    induction pages with
    | nil => intro r h; simp [fetch_record] at h
    | cons page rest ih =>
      intro r h
      have hacc : ∀ x ∈ (scanPage seqId k page.list).1, k < pyInt (seqId x) := by
        intro x hx
        rw [scanPage_eq] at hx
        have := List.mem_takeWhile_imp hx
        simpa using this
      simp only [fetch_record] at h
      split at h
      · exact hacc r h
      · split at h
        · exact hacc r h
        · split at h
          · rcases List.mem_append.mp h with h | h
            · exact hacc r h
            · exact ih r h
          · exact hacc r h
  · intro T seqId k l
    exact scanPage_eq seqId k l
  · intro T seqId k page rest h
    simp [fetch_record, h]

/-- Witness for `fetch_record_early_stop` at a concrete page list whose
second record triggers the early stop. -/
theorem fetch_record_early_stop_witness :
    (5 : Int) < pyInt ((mkChar "p" 3 "1100" "8" false).seqId)
    ∧ fetch_record (fun r : CharRecordItem => r.seqId)
        [⟨[mkChar "p" 3 "1100" "8" false, mkChar "p" 6 "1000" "5" false],
          true⟩, ⟨[mkChar "p" 3 "900" "3" false], false⟩] 5
      = (scanPage (fun r : CharRecordItem => r.seqId) 5
          [mkChar "p" 3 "1100" "8" false, mkChar "p" 6 "1000" "5" false]).1 :=
  ⟨fetch_record_early_stop.1 CharRecordItem (fun r => r.seqId) 5
      [⟨[mkChar "p" 3 "1100" "8" false, mkChar "p" 6 "1000" "5" false],
        true⟩, ⟨[mkChar "p" 3 "900" "3" false], false⟩]
      (mkChar "p" 3 "1100" "8" false) (by decide),
   fetch_record_early_stop.2.2.1 CharRecordItem (fun r => r.seqId) 5
      ⟨[mkChar "p" 3 "1100" "8" false, mkChar "p" 6 "1000" "5" false], true⟩
      [⟨[mkChar "p" 3 "900" "3" false], false⟩] (by decide)⟩

/-- Claim C6: a persisted document that is absent, unreadable, or fails
JSON decoding or model validation loads as `none` (the try/except in the
source catches every error, so nothing propagates), `get_max_seq_id` of an
empty list is 0, and whenever the load yields `none` the sync computes
known max sequence id 0 for both the character and the weapon category. -/
theorem load_failure_treated_as_empty :
    (∀ e, load_existing_gacha_data (FileReadResult.readError e) = none)
    ∧ (∀ e, load_existing_gacha_data (FileReadResult.parseError e) = none)
    ∧ load_existing_gacha_data FileReadResult.absent = none
    ∧ get_max_seq_id (fun r : CharRecordItem => r.seqId) [] = 0
    ∧ get_max_seq_id (fun r : WeaponRecordItem => r.seqId) [] = 0
    ∧ (∀ f : FileReadResult GachaPoolExport,
        load_existing_gacha_data f = none → knownMaxSeqIds f = (0, 0)) := by
  refine ⟨fun e => rfl, fun e => rfl, rfl, rfl, rfl, ?_⟩
  intro f h
  cases f with
  | absent => rfl
  | readError e => rfl
  | parseError e => rfl
  | ok d => simp [load_existing_gacha_data] at h

/-- Witness for `load_failure_treated_as_empty` at a malformed-JSON load
outcome. -/
theorem load_failure_treated_as_empty_witness :
    knownMaxSeqIds (FileReadResult.parseError "malformed JSON") = (0, 0) :=
  load_failure_treated_as_empty.2.2.2.2.2
    (FileReadResult.parseError "malformed JSON") rfl

/-- Claim C7 counterexample: for a record list holding a single free
rarity-6 pull, the statistics report a positive top-rarity count, yet the
header layer renders the sentinel, because the source guards the average on
`six_n > 0 and non_free_n > 0` and the non-free count here is zero.  The
claim that the average is produced exactly when the top-rarity count is
positive is therefore false. -/
theorem pool_stats_sentinel_counterexample :
    0 < (pool_stats_char [mkChar "p" 6 "100" "1" true]
        (fun _ => true)).six_count
    ∧ avg_pity_display
        (pool_stats_char [mkChar "p" 6 "100" "1" true]
          (fun _ => true)).six_count
        (pool_stats_char [mkChar "p" 6 "100" "1" true]
          (fun _ => true)).non_free_count = none := by
  constructor
  · decide
  · decide

/-- Claim C7 (amended): the statistics function computes total, free,
top-rarity and non-free counts over the filtered record set, returns the
all-zero record on empty input without failing, and the average
`non_free_count / six_count` is produced exactly when both the top-rarity
count and the non-free count are positive, the sentinel being rendered
otherwise. -/
theorem pool_stats_char_spec :
    (∀ (cl : List CharRecordItem) (pred : CharRecordItem → Bool),
      (pool_stats_char cl pred).total = (cl.filter pred).length
      ∧ (pool_stats_char cl pred).free_count
          = (cl.filter pred).countP (fun c => c.isFree)
      ∧ (pool_stats_char cl pred).six_count
          = (cl.filter pred).countP (fun c => c.rarity == 6)
      ∧ (pool_stats_char cl pred).non_free_count
          = (cl.filter pred).countP (fun c => !c.isFree))
    ∧ (∀ pred : CharRecordItem → Bool,
        pool_stats_char [] pred = ⟨0, 0, 0, 0⟩)
    ∧ (∀ s n : Nat,
        (avg_pity_display s n).isSome = (decide (0 < s) && decide (0 < n)))
    ∧ (∀ s n : Nat, 0 < s → 0 < n →
        avg_pity_display s n = some ((n : ℚ) / (s : ℚ))) := by
  refine ⟨?_, fun pred => rfl, ?_, ?_⟩
  · intro cl pred
    refine ⟨rfl, ?_, ?_, ?_⟩
    · show (cl.filter pred).length
          - ((cl.filter pred).filter (fun c => !c.isFree)).length = _
      have h1 := List.length_eq_countP_add_countP
        (fun c : CharRecordItem => c.isFree) (cl.filter pred)
      have h2 : ((cl.filter pred).filter (fun c => !c.isFree)).length
          = (cl.filter pred).countP (fun c => !c.isFree) :=
        (List.countP_eq_length_filter _ _).symm
      have h3 : (cl.filter pred).countP (fun c : CharRecordItem => ¬c.isFree)
          = (cl.filter pred).countP (fun c => !c.isFree) := by
        apply List.countP_congr
        intro c _
        simp
      omega
    · exact (List.countP_eq_length_filter _ _).symm
    · exact (List.countP_eq_length_filter _ _).symm
  · intro s n
    by_cases hs : 0 < s
    · by_cases hn : 0 < n
      · simp [avg_pity_display, hs, hn]
      · simp [avg_pity_display, hs, hn]
    · simp [avg_pity_display, hs]
  · intro s n hs hn
    simp [avg_pity_display, hs, hn]

/-- Witness for `pool_stats_char_spec` at positive counts. -/
theorem pool_stats_char_spec_witness :
    avg_pity_display 2 75 = some ((75 : ℚ) / (2 : ℚ)) :=
  pool_stats_char_spec.2.2.2 2 75 (by decide) (by decide)

lemma descLe_trans {T : Type} (V : RecordView T) (a b c : T)
    (hab : descLe V a b = true) (hbc : descLe V b c = true) :
    descLe V a c = true := by
  simp only [descLe, decide_eq_true_eq] at *
  omega

lemma descLe_total {T : Type} (V : RecordView T) (a b : T) :
    (descLe V a b || descLe V b a) = true := by
  simp only [descLe, Bool.or_eq_true, decide_eq_true_eq]
  omega

lemma ascLe_trans {T : Type} (V : RecordView T) (a b c : T)
    (hab : ascLe V a b = true) (hbc : ascLe V b c = true) :
    ascLe V a c = true := by
  simp only [ascLe, decide_eq_true_eq] at *
  omega

lemma ascLe_total {T : Type} (V : RecordView T) (a b : T) :
    (ascLe V a b || ascLe V b a) = true := by
  simp only [ascLe, Bool.or_eq_true, decide_eq_true_eq]
  omega

lemma pityLoop_eq {T : Type} (V : RecordView T) :
    ∀ (l : List T),
      pityLoop V l = (l.takeWhile (fun r => !(V.rarity r == 6))).countP
        (fun r => !V.isFree r) := by
  intro l
  induction l with
  | nil => simp [pityLoop]
  | cons r rs ih =>
    by_cases h : V.rarity r == 6
    · simp [pityLoop, h, List.takeWhile_cons]
    · have hb : (!(V.rarity r == 6)) = true := by simp [h]
      rw [List.takeWhile_cons, hb]
      simp only [if_pos rfl, List.countP_cons]
      simp only [pityLoop, if_neg (by simp [h] : ¬(V.rarity r == 6) = true)]
      by_cases hf : V.isFree r
      · simp [hf, ih]
      · simp only [hf, if_neg (by simp [hf] : ¬V.isFree r = true)]
        simp [ih, Bool.not_eq_true, hf]
        omega

lemma mem_pyDictKeys {p : String} :
    ∀ (l : List String), p ∈ pyDictKeys l ↔ p ∈ l := by
  intro l
  induction l with
  | nil => simp [pyDictKeys]
  | cons a ps ih =>
    simp only [pyDictKeys, List.mem_cons, List.mem_filter, bne_iff_ne]
    constructor
    · rintro (rfl | ⟨h1, _⟩)
      · exact Or.inl rfl
      · exact Or.inr (ih.mp h1)
    · rintro (rfl | h)
      · exact Or.inl rfl
      · by_cases hpa : p = a
        · exact Or.inl hpa
        · exact Or.inr ⟨ih.mpr h, hpa⟩

lemma lookup_keysMap {β : Type} (f : String → β) :
    ∀ (l : List String) (p : String), p ∈ l →
      (l.map (fun q => (q, f q))).lookup p = some (f p) := by
  intro l
  induction l with
  | nil => intro p h; simp at h
  | cons q qs ih =>
    intro p h
    by_cases hpq : p = q
    · simp [List.lookup, hpq]
    · have hmem : p ∈ qs := by
        rcases List.mem_cons.mp h with h | h
        · exact absurd h hpq
        · exact h
      simp only [List.map_cons, List.lookup,
        beq_eq_false_iff_ne.mpr hpq]
      exact ih p hmem

/-- Claim C1: `get_pity_per_pool` groups records by poolId, sorts each group
descending by the integer pair `(gachaTs, seqId)` (the group list is a
permutation of the records of the pool and is pairwise ordered under the
descending comparison), and maps each pool to the number of non-free records
in the maximal prefix of the sorted group before the first rarity-6 record:
free pulls are not counted but a free rarity-6 pull still ends the prefix.
The concrete conjuncts check the `[3, 3, 6, 3]` all-non-free sequence
(pity 1), a free rarity-3 pull not incrementing the count, and a free
rarity-6 pull still resetting it. -/
theorem pity_per_pool_spec :
    (∀ (T : Type) (V : RecordView T) (items : List T) (p : String),
        p ∈ items.map V.poolId →
          (poolSorted V items p).Perm
            (items.filter (fun i => V.poolId i == p))
          ∧ (poolSorted V items p).Pairwise (fun a b => descLe V a b = true)
          ∧ (get_pity_per_pool V items).lookup p
              = some (((poolSorted V items p).takeWhile
                  (fun r => !(V.rarity r == 6))).countP
                    (fun r => !V.isFree r)))
    ∧ get_pity_per_pool charView
        [mkChar "p" 3 "100" "1" false, mkChar "p" 3 "200" "2" false,
         mkChar "p" 6 "300" "3" false, mkChar "p" 3 "400" "4" false]
      = [("p", 1)]
    ∧ get_pity_per_pool charView
        [mkChar "p" 3 "100" "1" false, mkChar "p" 3 "200" "2" true,
         mkChar "p" 3 "300" "3" false]
      = [("p", 2)]
    ∧ get_pity_per_pool charView
        [mkChar "p" 3 "100" "1" false, mkChar "p" 6 "200" "2" true,
         mkChar "p" 3 "300" "3" false]
      = [("p", 1)] := by
  refine ⟨?_, by decide, by decide, by decide⟩
  intro T V items p hp
  refine ⟨List.mergeSort_perm _ _,
    List.sorted_mergeSort (descLe_trans V) (descLe_total V) _, ?_⟩
  show ((pyDictKeys (items.map V.poolId)).map
      (fun q => (q, pityLoop V (poolSorted V items q)))).lookup p = _
  rw [lookup_keysMap (fun q => pityLoop V (poolSorted V items q))
    (pyDictKeys (items.map V.poolId)) p (mem_pyDictKeys _ |>.mpr hp)]
  rw [pityLoop_eq]

/-- Witness for `pity_per_pool_spec` at the concrete `[3, 3, 6, 3]` pool. -/
theorem pity_per_pool_spec_witness :
    (poolSorted charView
        [mkChar "p" 3 "100" "1" false, mkChar "p" 3 "200" "2" false,
         mkChar "p" 6 "300" "3" false, mkChar "p" 3 "400" "4" false]
        "p").Perm
      ([mkChar "p" 3 "100" "1" false, mkChar "p" 3 "200" "2" false,
        mkChar "p" 6 "300" "3" false, mkChar "p" 3 "400" "4" false].filter
        (fun i => charView.poolId i == "p"))
    ∧ (poolSorted charView
        [mkChar "p" 3 "100" "1" false, mkChar "p" 3 "200" "2" false,
         mkChar "p" 6 "300" "3" false, mkChar "p" 3 "400" "4" false]
        "p").Pairwise (fun a b => descLe charView a b = true)
    ∧ (get_pity_per_pool charView
        [mkChar "p" 3 "100" "1" false, mkChar "p" 3 "200" "2" false,
         mkChar "p" 6 "300" "3" false, mkChar "p" 3 "400" "4" false]).lookup
        "p"
      = some (((poolSorted charView
          [mkChar "p" 3 "100" "1" false, mkChar "p" 3 "200" "2" false,
           mkChar "p" 6 "300" "3" false, mkChar "p" 3 "400" "4" false]
          "p").takeWhile (fun r => !(charView.rarity r == 6))).countP
            (fun r => !charView.isFree r)) :=
  pity_per_pool_spec.1 CharRecordItem charView
    [mkChar "p" 3 "100" "1" false, mkChar "p" 3 "200" "2" false,
     mkChar "p" 6 "300" "3" false, mkChar "p" 3 "400" "4" false]
    "p" (by decide)

lemma findIdx_key_eq {T : Type} [DecidableEq T] (p : T → Bool) (t : T) :
    ∀ (l : List T), t ∈ l → (∀ i ∈ l, p i = true ↔ i = t) →
      l.findIdx? p = some (l.findIdx (fun i => i == t)) := by
  intro l
  induction l with
  | nil => intro h; simp at h
  | cons a l ih =>
    intro hmem hiff
    by_cases hat : a = t
    · have hpa : p a = true := (hiff a (List.mem_cons_self _ _)).mpr hat
      have hbeq : (a == t) = true := beq_iff_eq.mpr hat
      simp [List.findIdx?_cons, hpa, List.findIdx_cons, hbeq]
    · have hpa : p a = false := by
        cases hq : p a
        · rfl
        · exact absurd ((hiff a (List.mem_cons_self _ _)).mp hq) hat
      have hbeq : (a == t) = false := beq_eq_false_iff_ne.mpr hat
      have htl : t ∈ l := by
        rcases List.mem_cons.mp hmem with h | h
        · exact absurd h.symm hat
        · exact h
      have IH := ih htl (fun i hi => hiff i (List.mem_cons_of_mem _ hi))
      simp [List.findIdx?_cons, hpa, List.findIdx_cons, hbeq,
        List.findIdx?_succ, IH]

lemma candidates_mem {T : Type} (V : RecordView T) (items : List T) (t : T)
    (i : T) (hi : i ∈ candidates V items t) :
    i ∈ items ∧ (V.poolId i == V.poolId t) = true ∧ V.isFree i = false := by
  rw [candidates, List.mem_mergeSort] at hi
  rcases List.mem_filter.mp hi with ⟨hi2, hfree⟩
  rcases List.mem_filter.mp hi2 with ⟨hi3, hpool⟩
  refine ⟨hi3, hpool, ?_⟩
  simpa using hfree

/-- Claim C8 counterexample: a free target record that is itself absent from
the non-free candidate list is nevertheless "located" through a different
non-free record carrying the same `seqId` and `gachaTs` strings, so the
function returns that record's position 2 instead of the claimed fallback 1
for an unlocatable target. -/
theorem pull_number_counterexample :
    mkChar "q" 6 "50" "7" true ∉ candidates charView
        [mkChar "q" 6 "50" "7" true, mkChar "q" 3 "50" "7" false,
         mkChar "q" 3 "10" "2" false] (mkChar "q" 6 "50" "7" true)
    ∧ get_pull_number_in_pool charView
        [mkChar "q" 6 "50" "7" true, mkChar "q" 3 "50" "7" false,
         mkChar "q" 3 "10" "2" false] (mkChar "q" 6 "50" "7" true) = 2 := by
  constructor
  · decide
  · decide

/-- Claim C8 (amended): the candidate list is the non-free records of the
target's pool sorted ascending by integer `(gachaTs, seqId)`; the function
returns the 1-based index of the first candidate whose `seqId` and `gachaTs`
strings equal the target's, and 1 when no candidate's key matches.  When the
target occurs in the candidate list and is the only key-matching candidate,
the result is exactly the target's 1-based position there. -/
theorem pull_number_spec :
    ∀ (T : Type) (V : RecordView T) [DecidableEq T] (items : List T) (t : T),
      (candidates V items t).Perm
        ((items.filter (fun i => V.poolId i == V.poolId t)).filter
          (fun i => !V.isFree i))
      ∧ (candidates V items t).Pairwise (fun a b => ascLe V a b = true)
      ∧ ((∀ i ∈ candidates V items t, matchKey V i t = false) →
          get_pull_number_in_pool V items t = 1)
      ∧ (t ∈ candidates V items t →
          (∀ i ∈ candidates V items t, matchKey V i t = true → i = t) →
          get_pull_number_in_pool V items t
            = (candidates V items t).findIdx (fun i => i == t) + 1) := by
  intro T V _ items t
  refine ⟨List.mergeSort_perm _ _,
    List.sorted_mergeSort (ascLe_trans V) (ascLe_total V) _, ?_, ?_⟩
  · intro h
    have hnone : (candidates V items t).findIdx?
        (fun i => matchKey V i t) = none :=
      List.findIdx?_eq_none_iff.mpr h
    show (match (candidates V items t).findIdx?
        (fun i => matchKey V i t) with
      | some idx => idx + 1
      | none => 1) = 1
    rw [hnone]
  · intro hmem huniq
    have hiff : ∀ i ∈ candidates V items t,
        matchKey V i t = true ↔ i = t := by
      intro i hi
      constructor
      · exact huniq i hi
      · rintro rfl
        simp [matchKey]
    have hsome := findIdx_key_eq (fun i => matchKey V i t) t
      (candidates V items t) hmem hiff
    show (match (candidates V items t).findIdx?
        (fun i => matchKey V i t) with
      | some idx => idx + 1
      | none => 1)
      = (candidates V items t).findIdx (fun i => i == t) + 1
    rw [hsome]

/-- Witness for `pull_number_spec`: the no-match branch at a target whose
seqId occurs nowhere, and the located branch at the most recent of two
non-free records. -/
theorem pull_number_spec_witness :
    get_pull_number_in_pool charView
      [mkChar "p" 3 "100" "1" false, mkChar "p" 6 "200" "2" false]
      (mkChar "p" 3 "900" "9" false) = 1
    ∧ get_pull_number_in_pool charView
        [mkChar "p" 3 "100" "1" false, mkChar "p" 6 "200" "2" false]
        (mkChar "p" 6 "200" "2" false)
      = (candidates charView
          [mkChar "p" 3 "100" "1" false, mkChar "p" 6 "200" "2" false]
          (mkChar "p" 6 "200" "2" false)).findIdx
            (fun i => i == mkChar "p" 6 "200" "2" false) + 1 :=
  ⟨(pull_number_spec CharRecordItem charView
      [mkChar "p" 3 "100" "1" false, mkChar "p" 6 "200" "2" false]
      (mkChar "p" 3 "900" "9" false)).2.2.1 (by decide),
   (pull_number_spec CharRecordItem charView
      [mkChar "p" 3 "100" "1" false, mkChar "p" 6 "200" "2" false]
      (mkChar "p" 6 "200" "2" false)).2.2.2 (by decide) (by decide)⟩

/-- Claim C10 counterexample: a free target does not always get pull number
1: a non-free record of the same pool sharing the target's `seqId` and
`gachaTs` strings is located instead, here at position 2. -/
theorem free_pull_number_counterexample :
    charView.isFree (mkChar "r" 6 "80" "9" true) = true
    ∧ get_pull_number_in_pool charView
        [mkChar "r" 6 "80" "9" true, mkChar "r" 3 "80" "9" false,
         mkChar "r" 3 "10" "1" false] (mkChar "r" 6 "80" "9" true) = 2 := by
  constructor
  · decide
  · decide

/-- Claim C10 (amended): a free target receives pull number 1 provided no
non-free record of its pool carries the same `seqId` and `gachaTs` strings
(the free target itself is filtered out of the candidate list); and the card
renderer substitutes the lucky label for the pull number on free pulls. -/
theorem free_pull_number :
    (∀ (T : Type) (V : RecordView T) (items : List T) (t : T),
        V.isFree t = true →
        (∀ i ∈ items, (V.poolId i == V.poolId t) = true →
          V.isFree i = false → matchKey V i t = false) →
        get_pull_number_in_pool V items t = 1)
    ∧ (∀ n : Nat, card_text true n = "欧皇")
    ∧ (∀ n : Nat, card_text false n = toString n ++ "抽") := by
  refine ⟨?_, fun n => rfl, fun n => rfl⟩
  intro T V items t _ hnm
  have hall : ∀ i ∈ candidates V items t, matchKey V i t = false := by
    intro i hi
    rcases candidates_mem V items t i hi with ⟨h1, h2, h3⟩
    exact hnm i h1 h2 h3
  have hnone : (candidates V items t).findIdx?
      (fun i => matchKey V i t) = none :=
    List.findIdx?_eq_none_iff.mpr hall
  show (match (candidates V items t).findIdx?
      (fun i => matchKey V i t) with
    | some idx => idx + 1
    | none => 1) = 1
  rw [hnone]

/-- Witness for `free_pull_number` at a free target with no key-matching
non-free sibling. -/
theorem free_pull_number_witness :
    get_pull_number_in_pool charView
      [mkChar "p" 6 "100" "1" true, mkChar "p" 3 "200" "2" false]
      (mkChar "p" 6 "100" "1" true) = 1 :=
  free_pull_number.1 CharRecordItem charView
    [mkChar "p" 6 "100" "1" true, mkChar "p" 3 "200" "2" false]
    (mkChar "p" 6 "100" "1" true) (by decide) (by decide)

end BeyondUID
